import Mathlib

/-!
Verification of the core algorithms of the dma_bot_rust trading engine:
a shallow embedding of the pure state-transition logic of the risk gate
(src/risk.rs), the smart-order router (src/router.rs), the positions/PnL
accumulator (src/positions.rs) and the MA-crossover strategy state machine
(src/strategy.rs), with theorems about throttling, order splitting, average
cost and signal emission.

Machine integers: Rust `i64`/`i128` values are modelled as `Int` and `u32`
counters as `Nat`; where i64 overflow is semantically relevant (the risk
gate's `saturating_mul`) the saturation bounds are modelled explicitly.
Rust integer division truncates toward zero, which is `Int.tdiv`.
-/

/-! ## Domain model (src/domain.rs) -/

inductive Side where
  | Buy
  | Sell
deriving DecidableEq

/-- `Side::sign` from src/domain.rs: Buy ↦ 1, Sell ↦ -1. -/
def Side.sign : Side → Int
  | .Buy => 1
  | .Sell => -1

inductive ExecStatus where
  | Ack
  | PartialFill
  | Filled
  | Rejected (reason : String)
deriving DecidableEq

structure MdTick where
  ts_ns : Int
  symbol : String
  best_bid : Int
  best_ask : Int
deriving DecidableEq

structure Signal where
  ts_ns : Int
  symbol : String
  side : Side
  px : Int
  qty : Int
deriving DecidableEq

structure Order where
  cl_id : String
  ts_ns : Int
  symbol : String
  side : Side
  px : Int
  qty : Int
deriving DecidableEq

structure VenueOrder where
  venue : String
  order : Order
deriving DecidableEq

structure ExecReport where
  cl_id : String
  symbol : String
  status : ExecStatus
  filled_qty : Int
  avg_px : Int
  ts_ns : Int
deriving DecidableEq

structure VenuePosition where
  qty : Int
  avg_cost_px : Int
  realized_pnl : Int
deriving DecidableEq

/-- `VenuePosition::default()`: all-zero position. -/
def VenuePosition.default : VenuePosition := ⟨0, 0, 0⟩

/-- `SymbolState` with the `by_venue` hash map modelled as an association list
(the iteration order of the map is irrelevant to every property proved here). -/
structure SymbolState where
  last_mid : Int
  total_qty : Int
  realized_pnl : Int
  unrealized_pnl : Int
  by_venue : List (String × VenuePosition)
deriving DecidableEq

/-- `SymbolState::default()`. -/
def SymbolState.default : SymbolState := ⟨0, 0, 0, 0, []⟩

/-! ## Risk gate (src/risk.rs, src/config.rs) -/

structure Limits where
  max_notional : Int
  px_min : Int
  px_max : Int
  max_qps : Nat
deriving DecidableEq

/-- The default limits built by `config::load` when no environment overrides
are present: `MAX_NOTIONAL=2_000_000_000`, `PX_MIN=1_000`, `PX_MAX=200_000`,
`MAX_QPS=50`. -/
def limitsDefault : Limits := ⟨2000000000, 1000, 200000, 50⟩

structure ThrottleState where
  last_ns : Int
  counter : Nat
deriving DecidableEq

/-- `ThrottleState::default()`. -/
def ThrottleState.default : ThrottleState := ⟨0, 0⟩

/-- Placeholder `Positions` struct of src/risk.rs (unused by `check`). -/
structure Positions where
  qty : Int

inductive RiskError where
  | Notional
  | PriceBand
  | Throttle
deriving DecidableEq

/-- i64::MAX. -/
def I64_MAX : Int := 2 ^ 63 - 1

/-- i64::MIN. -/
def I64_MIN : Int := -(2 ^ 63)

/-- Rust `i64::saturating_mul`: the mathematical product clamped to the
i64 range. -/
def saturating_mul (a b : Int) : Int :=
  if I64_MAX < a * b then I64_MAX
  else if a * b < I64_MIN then I64_MIN
  else a * b

/-- `risk::check`. The wall-clock read `Utc::now()` and the random u32 used
for the client order id are passed in as the explicit parameters `now` and
`rand`; the function returns the result together with the updated throttle
state (the Rust function mutates `thr` in place). -/
def check (sig : Signal) (lim : Limits) (_pos : Positions) (thr : ThrottleState)
    (now : Int) (rand : Nat) : Except RiskError Order × ThrottleState :=
  -- 1) Notional limit (px * qty), rejected when saturating product exceeds the cap
  if lim.max_notional < saturating_mul sig.px sig.qty then
    (Except.error RiskError.Notional, thr)
  -- 2) Price band
  else if sig.px < lim.px_min ∨ lim.px_max < sig.px then
    (Except.error RiskError.PriceBand, thr)
  -- 3) Throttle: within 20ms of last_ns increment the counter, else reset
  else if now - thr.last_ns < 20000000 then
    let thr2 : ThrottleState := { thr with counter := thr.counter + 1 }
    if lim.max_qps < thr2.counter then (Except.error RiskError.Throttle, thr2)
    else
      (Except.ok { cl_id := "CL-" ++ toString now ++ "-" ++ toString rand,
                   ts_ns := sig.ts_ns, symbol := sig.symbol, side := sig.side,
                   px := sig.px, qty := sig.qty }, thr2)
  else
    (Except.ok { cl_id := "CL-" ++ toString now ++ "-" ++ toString rand,
                 ts_ns := sig.ts_ns, symbol := sig.symbol, side := sig.side,
                 px := sig.px, qty := sig.qty },
     { last_ns := now, counter := 0 })

/-- A signal passes the stateless checks of `risk::check` (notional cap and
price band); such a signal reaches the throttle stage. -/
def passesStaticChecks (sig : Signal) (lim : Limits) : Prop :=
  saturating_mul sig.px sig.qty ≤ lim.max_notional ∧
    lim.px_min ≤ sig.px ∧ sig.px ≤ lim.px_max

instance (sig : Signal) (lim : Limits) : Decidable (passesStaticChecks sig lim) :=
  inferInstanceAs (Decidable (_ ∧ _ ∧ _))

/-- The receive loop of `risk::run`, applied to a finite burst of signals;
each signal comes with the `now` timestamp at which `check` processes it.
Returns the accepted orders, the rejection kinds, and the final throttle
state. -/
def processSignals (lim : Limits) :
    List (Signal × Int) → ThrottleState → List Order × List RiskError × ThrottleState
  | [], thr => ([], [], thr)
  | (sig, now) :: rest, thr =>
    let r := check sig lim ⟨0⟩ thr now 0
    let rec0 := processSignals lim rest r.2
    match r.1 with
    | Except.ok o => (o :: rec0.1, rec0.2.1, rec0.2.2)
    | Except.error e => (rec0.1, e :: rec0.2.1, rec0.2.2)

/-! ## Positions / PnL (src/positions.rs) -/

/-- Rust `str::split('-')` on the character list of a string: the list of
maximal '-'-free segments (always non-empty; an empty input yields `[[]]`,
exactly as `"".split('-')` yields `[""]`). -/
def splitDash : List Char → List (List Char)
  | [] => [[]]
  | c :: rest =>
    if c = '-' then [] :: splitDash rest
    else
      match splitDash rest with
      | [] => [[c]]
      | h :: t => (c :: h) :: t

/-- Venue derivation of `PositionsTask::on_fill`:
`er.cl_id.split('-').last().unwrap_or("?")`. -/
def venueOf (cl_id : String) : String :=
  match (splitDash cl_id.data).getLast? with
  | some seg => String.mk seg
  | none => "?"

/-- The segment of a string after its last '-' (the whole string when it
contains no '-'). Stated from the spec's words, to be compared with
`venueOf`. -/
def tailAfterDash : List Char → List Char
  | [] => []
  | c :: rest =>
    if '-' ∈ rest then tailAfterDash rest
    else if c = '-' then rest
    else c :: rest

/-- The per-venue fill update of `PositionsTask::on_fill` (the body between
the venue lookup and the aggregate recomputation), acting on one
`VenuePosition`. -/
def applyFill (p : VenuePosition) (filled_qty avg_px : Int) (side : Side) :
    VenuePosition :=
  let signed_qty := side.sign * filled_qty
  let prev_qty := p.qty
  let new_qty := prev_qty + signed_qty
  if prev_qty = 0 ∨ Int.sign prev_qty = Int.sign signed_qty then
    -- same direction -> update avg cost
    let avg := if p.qty = 0 then avg_px
      else Int.tdiv (p.avg_cost_px * p.qty + avg_px * |signed_qty|) (p.qty + |signed_qty|)
    { p with avg_cost_px := avg, qty := new_qty }
  else
    -- opposite direction -> realize PnL
    let qty_closed := min |signed_qty| |prev_qty|
    let pnl := (avg_px - p.avg_cost_px) * (if 0 < prev_qty then qty_closed else -qty_closed)
    let p2 := { p with realized_pnl := p.realized_pnl + pnl, qty := new_qty }
    if p2.qty = 0 then { p2 with avg_cost_px := 0 } else p2

/-- Lookup in the `by_venue` association list. -/
def lookupVenue (m : List (String × VenuePosition)) (k : String) :
    Option VenuePosition :=
  (m.find? (fun pr => pr.1 == k)).map Prod.snd

/-- `by_venue.entry(venue).or_insert(VenuePosition::default())` followed by an
in-place mutation `f` of the entry. -/
def updateVenue (m : List (String × VenuePosition)) (k : String)
    (f : VenuePosition → VenuePosition) : List (String × VenuePosition) :=
  if m.any (fun pr => pr.1 == k) then
    m.map (fun pr => if pr.1 == k then (pr.1, f pr.2) else pr)
  else m ++ [(k, f VenuePosition.default)]

/-- `PositionsTask::on_fill`: derive the venue from `cl_id`, update that
venue's position, then recompute the aggregate `total_qty` and
`realized_pnl` as sums over all venues (the Prometheus gauge writes are
side effects outside the state and are dropped). -/
def onFill (st : SymbolState) (er : ExecReport) (side : Side) : SymbolState :=
  let venue := venueOf er.cl_id
  let m := updateVenue st.by_venue venue
    (fun p => applyFill p er.filled_qty er.avg_px side)
  { st with
      by_venue := m,
      total_qty := (m.map (fun pr => pr.2.qty)).sum,
      realized_pnl := (m.map (fun pr => pr.2.realized_pnl)).sum }

/-! ## Strategy: MA crossover state machine (src/strategy.rs) -/

/-- `strategy::mid_price`: (best_bid + best_ask) / 2 in i64 division. -/
def mid_price (md : MdTick) : Int :=
  Int.tdiv (md.best_bid + md.best_ask) 2

/-- `MACrossState::push_window`: drop the front once the window holds `cap`
elements, then push `v`; the running sum is updated alongside. -/
def push_window (win : List Int) (sum : Int) (cap : Nat) (v : Int) :
    List Int × Int :=
  let ws :=
    if win.length = cap then
      match win with
      | [] => (win, sum)
      | x :: rest => (rest, sum - x)
    else (win, sum)
  (ws.1 ++ [v], ws.2 + v)

/-- `MACrossState::sma`: `sum / len` when `len > 0`. -/
def sma (sum : Int) (len : Nat) : Option Int :=
  if 0 < len then some (Int.tdiv sum (len : Int)) else none

/-- u32::MAX, the saturation bound of `since_last.saturating_add(1)`. -/
def U32_MAX : Nat := 2 ^ 32 - 1

structure MACrossState where
  fast_w : Nat
  slow_w : Nat
  fast_win : List Int
  slow_win : List Int
  fast_sum : Int
  slow_sum : Int
  prev_diff_sign : Int
  min_edge : Int
  cooldown_ticks : Nat
  since_last : Nat
deriving DecidableEq

/-- `MACrossState::new`: empty windows, `prev_diff_sign = 0`, and
`since_last = cooldown_ticks` ("mulai bisa sinyal"). -/
def MACrossState.new (fast_w slow_w : Nat) (min_edge : Int) (cooldown_ticks : Nat) :
    MACrossState :=
  { fast_w := fast_w, slow_w := slow_w, fast_win := [], slow_win := [],
    fast_sum := 0, slow_sum := 0, prev_diff_sign := 0, min_edge := min_edge,
    cooldown_ticks := cooldown_ticks, since_last := cooldown_ticks }

/-- `MACrossState::on_tick`, returning the optional signal and the updated
state. The `unwrap` of `sma` is modelled with `getD 0`; it is reached only
with a positive window length, where `sma` is `some`. -/
def MACrossState.on_tick (st : MACrossState) (md : MdTick) :
    Option Signal × MACrossState :=
  let m := mid_price md
  let f := push_window st.fast_win st.fast_sum st.fast_w m
  let s := push_window st.slow_win st.slow_sum st.slow_w m
  let st1 := { st with fast_win := f.1, fast_sum := f.2,
                       slow_win := s.1, slow_sum := s.2,
                       since_last := min (st.since_last + 1) U32_MAX }
  if st1.fast_win.length < st1.fast_w ∨ st1.slow_win.length < st1.slow_w then
    (none, st1)
  else
    let fast := (sma st1.fast_sum st1.fast_w).getD 0
    let slow := (sma st1.slow_sum st1.slow_w).getD 0
    let diff := fast - slow
    -- Edge filter: ignore a diff that is too small
    if |diff| < st1.min_edge then (none, st1)
    else
      let cur : Int := if 0 < diff then 1 else -1
      -- Detect crossing only when the sign changed and the cooldown passed
      if cur ≠ st1.prev_diff_sign ∧ st1.cooldown_ticks ≤ st1.since_last then
        let st2 := { st1 with prev_diff_sign := cur, since_last := 0 }
        if 0 < cur then
          (some ⟨md.ts_ns, md.symbol, Side.Buy, md.best_ask, 10⟩, st2)
        else
          (some ⟨md.ts_ns, md.symbol, Side.Sell, md.best_bid, 10⟩, st2)
      else if st1.prev_diff_sign = 0 then
        (none, { st1 with prev_diff_sign := cur })
      else (none, st1)

/-- A tick is a valid cross candidate for the current state: after pushing
the mid into both windows they are full and the SMA difference clears the
`min_edge` filter. Stated from the spec's words for the amended emission
condition. -/
def maTickValid (st : MACrossState) (md : MdTick) : Prop :=
  let m := mid_price md
  let f := push_window st.fast_win st.fast_sum st.fast_w m
  let s := push_window st.slow_win st.slow_sum st.slow_w m
  st.fast_w ≤ f.1.length ∧ st.slow_w ≤ s.1.length ∧
    st.min_edge ≤ |(sma f.2 st.fast_w).getD 0 - (sma s.2 st.slow_w).getD 0|

instance (st : MACrossState) (md : MdTick) : Decidable (maTickValid st md) :=
  inferInstanceAs (Decidable (_ ∧ _ ∧ _))

/-- The sign of the SMA difference computed by `on_tick` for this tick:
+1 when `diff > 0`, else −1. -/
def maCurSign (st : MACrossState) (md : MdTick) : Int :=
  let m := mid_price md
  let f := push_window st.fast_win st.fast_sum st.fast_w m
  let s := push_window st.slow_win st.slow_sum st.slow_w m
  if 0 < (sma f.2 st.fast_w).getD 0 - (sma s.2 st.slow_w).getD 0 then 1 else -1

/-! ## Smart-order router (src/router.rs) -/

structure VenueCfg where
  fee_bps : Int
  est_latency_ms : Nat
  liq_score : Nat
deriving DecidableEq

/-- `RouterCfg`, with the `venues` hash map modelled as an association list
(scores decide the processing order, so the map's iteration order is
irrelevant once scores are distinct, and no property proved here depends
on it). -/
structure RouterCfg where
  venues : List (String × VenueCfg)
  top_n : Nat
  min_child_qty : Int
  inv_target : Int
  inv_bias_weight : Int
deriving DecidableEq

/-- `RouterCfg::default()`: venues A, B, C with the liquidity, fee and
latency figures of src/router.rs, `top_n = 2`, `min_child_qty = 2`. -/
def RouterCfg.default : RouterCfg :=
  { venues := [("A", ⟨5, 3, 70⟩), ("B", ⟨7, 2, 50⟩), ("C", ⟨2, 6, 90⟩)],
    top_n := 2, min_child_qty := 2, inv_target := 0, inv_bias_weight := 5 }

/-- `router::score_base`: `liq_score - fee_bps·px/10_000 - est_latency_ms`. -/
def score_base (v : VenueCfg) (px : Int) : Int :=
  (v.liq_score : Int) - Int.tdiv (v.fee_bps * px) 10000 - (v.est_latency_ms : Int)

/-- `cfg.venues.get(k).unwrap().liq_score` (lookup of a selected venue's
liquidity; the key always originates from `cfg.venues`). -/
def liqOf (cfg : RouterCfg) (k : String) : Int :=
  (((cfg.venues.find? (fun pr => pr.1 == k)).map (fun pr => pr.2.liq_score)).getD 0 : Nat)

/-- The venue's current inventory read from the snapshot:
`inv.state.by_venue.get(venue).map(|vp| vp.qty).unwrap_or(0)`. -/
def invQtyOf (inv : List (String × VenuePosition)) (k : String) : Int :=
  ((lookupVenue inv k).map VenuePosition.qty).getD 0

/-- Stable insertion into a list sorted by descending score: the element is
placed before the first strictly smaller score, after equal ones. -/
def insertByScore (a : String × Int) : List (String × Int) → List (String × Int)
  | [] => [a]
  | b :: t => if b.2 < a.2 then a :: b :: t else b :: insertByScore a t

/-- `ranked.sort_by_key(|(_, s)| -s)`: a stable sort by descending score
(Rust's `sort_by_key` is stable, so this insertion sort produces the same
list). -/
def sortByScoreDesc : List (String × Int) → List (String × Int)
  | [] => []
  | a :: t => insertByScore a (sortByScoreDesc t)

/-- Steps 1–3 of the router loop: base score per venue, inventory bias
`-sign(qty)·inv_bias_weight`, stable descending sort, and `take top_n`. -/
def topVenues (cfg : RouterCfg) (inv : List (String × VenuePosition)) (o : Order) :
    List (String × Int) :=
  let ranked := cfg.venues.map (fun pr => (pr.1, score_base pr.2 o.px))
  let ranked := ranked.map
    (fun pr => (pr.1, pr.2 + -(Int.sign (invQtyOf inv pr.1)) * cfg.inv_bias_weight))
  (sortByScoreDesc ranked).take cfg.top_n

/-- Step 4 of the router loop: walk the selected venues with the running
`remaining`; every venue but the last gets
`max(qty·liq/total_liq, min_child_qty)`, the last gets the remainder, and a
child is emitted only when the share is positive and a gateway for the
venue exists. -/
def splitEmit (cfg : RouterCfg) (o : Order) (gw : List String) (total_liq : Int) :
    List (String × Int) → Int → List VenueOrder
  | [], _ => []
  | (k, _) :: rest, remaining =>
    let share :=
      if rest.isEmpty then remaining
      else max (Int.tdiv (o.qty * liqOf cfg k) total_liq) cfg.min_child_qty
    let tail := splitEmit cfg o gw total_liq rest (remaining - share)
    if share ≤ 0 then tail
    else if gw.contains k then
      ⟨k, { o with qty := share, cl_id := o.cl_id ++ "-" ++ k }⟩ :: tail
    else tail

/-- The list of child shares the loop computes (same recursion as
`splitEmit`, recording every share including non-positive ones). -/
def shareListAux (cfg : RouterCfg) (o : Order) (total_liq : Int) :
    List (String × Int) → Int → List Int
  | [], _ => []
  | (k, _) :: rest, remaining =>
    let share :=
      if rest.isEmpty then remaining
      else max (Int.tdiv (o.qty * liqOf cfg k) total_liq) cfg.min_child_qty
    share :: shareListAux cfg o total_liq rest (remaining - share)

/-- One iteration of `router::run` for an incoming order: select the top
venues, compute the total selected liquidity, and emit the children.
`gw` is the set of venues that have a gateway queue (`gw_txs`). -/
def routeOrder (cfg : RouterCfg) (inv : List (String × VenuePosition))
    (gw : List String) (o : Order) : List VenueOrder :=
  let top := topVenues cfg inv o
  splitEmit cfg o gw ((top.map (fun pr => liqOf cfg pr.1)).sum) top o.qty

/-- The shares computed while routing an order. -/
def routerShares (cfg : RouterCfg) (inv : List (String × VenuePosition))
    (o : Order) : List Int :=
  let top := topVenues cfg inv o
  shareListAux cfg o ((top.map (fun pr => liqOf cfg pr.1)).sum) top o.qty

/-- A flood of 100 identical valid signals whose arrival times are spread
100 µs apart over 10 ms (the risk-throttle end-to-end scenario). -/
def floodSigs : List (Signal × Int) :=
  (List.range 100).map (fun i => (⟨0, "BTCUSDT", Side.Buy, 10000, 10⟩, (i : Int) * 100000))

/-! ## Auxiliary lemmas -/

lemma splitDash_ne_nil (l : List Char) : splitDash l ≠ [] := by
  cases l with
  | nil => simp [splitDash]
  | cons c rest =>
    by_cases hc : c = '-'
    · simp [splitDash, hc]
    · simp only [splitDash, if_neg hc]
      cases h : splitDash rest with
      | nil => simp
      | cons a t => simp

lemma splitDash_no_dash (l : List Char) (h : '-' ∉ l) : splitDash l = [l] := by
  induction l with
  | nil => rfl
  | cons c rest ih =>
    have hc : ¬ c = '-' := fun hcc => h (by simp [hcc])
    have hr : '-' ∉ rest := fun hrr => h (List.mem_cons_of_mem _ hrr)
    simp only [splitDash, if_neg hc, ih hr]

lemma tailAfterDash_no_dash (l : List Char) (h : '-' ∉ l) : tailAfterDash l = l := by
  cases l with
  | nil => rfl
  | cons c rest =>
    have hc : ¬ c = '-' := fun hcc => h (by simp [hcc])
    have hr : '-' ∉ rest := fun hrr => h (List.mem_cons_of_mem _ hrr)
    simp [tailAfterDash, hc, hr]

lemma splitDash_length_two (l : List Char) (h : '-' ∈ l) :
    2 ≤ (splitDash l).length := by
  induction l with
  | nil => simp at h
  | cons c rest ih =>
    by_cases hc : c = '-'
    · have hlen : 0 < (splitDash rest).length :=
        List.length_pos.mpr (splitDash_ne_nil rest)
      simp only [splitDash, if_pos hc, List.length_cons]
      omega
    · have hr : '-' ∈ rest := by
        rcases List.mem_cons.mp h with h1 | h1
        · exact absurd h1.symm hc
        · exact h1
      have h2 := ih hr
      simp only [splitDash, if_neg hc]
      cases hsp : splitDash rest with
      | nil => exact absurd hsp (splitDash_ne_nil rest)
      | cons a t =>
        rw [hsp] at h2
        simpa using h2

lemma splitDash_getLast (l : List Char) :
    (splitDash l).getLast? = some (tailAfterDash l) := by
  induction l with
  | nil => rfl
  | cons c rest ih =>
    have hne := splitDash_ne_nil rest
    obtain ⟨h1, t1, hsp⟩ : ∃ h1 t1, splitDash rest = h1 :: t1 := by
      cases hq : splitDash rest with
      | nil => exact absurd hq hne
      | cons a t => exact ⟨a, t, rfl⟩
    by_cases hc : c = '-'
    · subst hc
      have hd : splitDash ('-' :: rest) = [] :: h1 :: t1 := by
        simp [splitDash, hsp]
      rw [hd, List.getLast?_cons_cons, ← hsp, ih]
      by_cases hr : '-' ∈ rest
      · simp [tailAfterDash, hr]
      · simp [tailAfterDash, hr, tailAfterDash_no_dash rest hr]
    · have hd : splitDash (c :: rest) = (c :: h1) :: t1 := by
        simp [splitDash, hc, hsp]
      by_cases hr : '-' ∈ rest
      · have h2 := splitDash_length_two rest hr
        rw [hsp] at h2
        obtain ⟨x, t2, ht⟩ : ∃ x t2, t1 = x :: t2 := by
          cases hq : t1 with
          | nil => rw [hq] at h2; simp at h2
          | cons x t2 => exact ⟨x, t2, rfl⟩
        rw [hd, ht, List.getLast?_cons_cons]
        have ihx := ih
        rw [hsp, ht, List.getLast?_cons_cons] at ihx
        rw [ihx]
        simp [tailAfterDash, hr]
      · have hone : splitDash rest = [rest] := splitDash_no_dash rest hr
        rw [hone] at hsp
        obtain ⟨he1, he2⟩ : h1 = rest ∧ t1 = [] := by
          constructor <;> injection hsp <;> simp_all
        subst he1; subst he2
        rw [hd]
        simp [tailAfterDash, hr, hc]

lemma applyFill_zero (p : VenuePosition) (side : Side)
    (h : p.qty = 0 → p.avg_cost_px = 0) : applyFill p 0 0 side = p := by
  obtain ⟨q, a, r⟩ := p
  have hsig : side.sign * 0 = 0 := mul_zero _
  by_cases hq : q = 0
  · subst hq
    have ha : a = 0 := h rfl
    subst ha
    simp [applyFill]
  · simp only [applyFill, hsig]
    rw [if_neg]
    · have hmin : min |(0 : Int)| |q| = 0 := by
        simp
      simp only [hmin]
      have hpnl : ((0 : Int) - a) * (if 0 < q then (0 : Int) else -0) = 0 := by
        rcases lt_or_ge 0 q with h1 | h1 <;> simp [h1]
      simp only [hpnl]
      rw [if_neg]
      · simp
      · simpa using hq
    · rw [Int.sign_zero]
      simp [hq, Int.sign_eq_zero_iff_zero]

lemma updateVenue_zero (m : List (String × VenuePosition)) (k : String) (side : Side)
    (hinv : ∀ pr ∈ m, pr.2.qty = 0 → pr.2.avg_cost_px = 0) :
    updateVenue m k (fun p => applyFill p 0 0 side)
      = if m.any (fun pr => pr.1 == k) then m else m ++ [(k, VenuePosition.default)] := by
  unfold updateVenue
  split_ifs with h
  · have hmap : m.map (fun pr => if pr.1 == k then (pr.1, applyFill pr.2 0 0 side) else pr)
        = m.map id := by
      apply List.map_congr_left
      intro pr hpr
      by_cases hk : pr.1 == k
      · simp only [hk, if_pos, id]
        rw [applyFill_zero pr.2 side (hinv pr hpr)]
      · simp [hk]
    rw [hmap, List.map_id]
  · have hz : applyFill VenuePosition.default 0 0 side = VenuePosition.default :=
      applyFill_zero VenuePosition.default side (fun _ => rfl)
    simp only [hz]

lemma applyFill_buy_flat (Q P : Int) :
    applyFill VenuePosition.default Q P Side.Buy = ⟨Q, P, 0⟩ := by
  simp [applyFill, VenuePosition.default, Side.sign]

lemma applyFill_sell_flat (Q P : Int) :
    applyFill VenuePosition.default Q P Side.Sell = ⟨-Q, P, 0⟩ := by
  simp [applyFill, VenuePosition.default, Side.sign]

lemma applyFill_close_long (Q P : Int) (hQ : 0 < Q) :
    applyFill ⟨Q, P, 0⟩ Q P Side.Sell = VenuePosition.default := by
  have hQ0 : Q ≠ 0 := ne_of_gt hQ
  simp only [applyFill, Side.sign]
  rw [if_neg]
  · have hmin : min |(-1 : Int) * Q| |Q| = Q := by
      rw [neg_one_mul, abs_neg, min_self, abs_of_pos hQ]
    simp only [hmin, sub_self, zero_mul]
    rw [if_pos]
    · simp [VenuePosition.default]
    · simp
  · push_neg
    refine ⟨hQ0, ?_⟩
    rw [Int.sign_eq_one_of_pos hQ, neg_one_mul, Int.sign_neg, Int.sign_eq_one_of_pos hQ]
    decide

lemma applyFill_close_short (Q P : Int) (hQ : 0 < Q) :
    applyFill ⟨-Q, P, 0⟩ Q P Side.Buy = VenuePosition.default := by
  have hQ0 : Q ≠ 0 := ne_of_gt hQ
  simp only [applyFill, Side.sign]
  rw [if_neg]
  · have hmin : min |(1 : Int) * Q| |(-Q : Int)| = Q := by
      rw [one_mul, abs_neg, min_self, abs_of_pos hQ]
    simp only [hmin, sub_self, zero_mul]
    have h0 : -Q + 1 * Q = 0 := by ring
    rw [if_pos h0]
    simp [VenuePosition.default, h0]
  · push_neg
    refine ⟨by simpa using hQ0, ?_⟩
    rw [one_mul, Int.sign_neg, Int.sign_eq_one_of_pos hQ]
    decide

lemma check_window_reject (sig : Signal) (lim : Limits) (pos : Positions)
    (thr : ThrottleState) (now : Int) (rand : Nat)
    (hv : passesStaticChecks sig lim) (hw : now - thr.last_ns < 20000000)
    (hc : lim.max_qps < thr.counter + 1) :
    check sig lim pos thr now rand
      = (Except.error RiskError.Throttle, { thr with counter := thr.counter + 1 }) := by
  obtain ⟨hv1, hv2, hv3⟩ := hv
  have h1 : ¬ lim.max_notional < saturating_mul sig.px sig.qty := not_lt.mpr hv1
  have h2 : ¬ (sig.px < lim.px_min ∨ lim.px_max < sig.px) := by omega
  simp [check, h1, h2, hw, hc]

lemma check_window_accept (sig : Signal) (lim : Limits) (pos : Positions)
    (thr : ThrottleState) (now : Int) (rand : Nat)
    (hv : passesStaticChecks sig lim) (hw : now - thr.last_ns < 20000000)
    (hc : thr.counter + 1 ≤ lim.max_qps) :
    check sig lim pos thr now rand
      = (Except.ok { cl_id := "CL-" ++ toString now ++ "-" ++ toString rand,
                     ts_ns := sig.ts_ns, symbol := sig.symbol, side := sig.side,
                     px := sig.px, qty := sig.qty },
         { thr with counter := thr.counter + 1 }) := by
  obtain ⟨hv1, hv2, hv3⟩ := hv
  have h1 : ¬ lim.max_notional < saturating_mul sig.px sig.qty := not_lt.mpr hv1
  have h2 : ¬ (sig.px < lim.px_min ∨ lim.px_max < sig.px) := by omega
  have h3 : ¬ lim.max_qps < thr.counter + 1 := not_lt.mpr hc
  simp [check, h1, h2, hw, h3]

lemma processSignals_throttle_bound (lim : Limits) (sigs : List (Signal × Int)) :
    ∀ thr : ThrottleState,
      (∀ p ∈ sigs, p.2 - thr.last_ns < 20000000) →
      (∀ p ∈ sigs, passesStaticChecks p.1 lim) →
      (processSignals lim sigs thr).1.length ≤ lim.max_qps - thr.counter ∧
      ∀ e ∈ (processSignals lim sigs thr).2.1, e = RiskError.Throttle := by
  induction sigs with
  | nil =>
    intro thr _ _
    simp [processSignals]
  | cons hd tl ih =>
    intro thr hwin hval
    obtain ⟨sig, now⟩ := hd
    have hw : now - thr.last_ns < 20000000 := hwin (sig, now) (List.mem_cons_self _ _)
    have hv : passesStaticChecks sig lim := hval (sig, now) (List.mem_cons_self _ _)
    have hwin' : ∀ p ∈ tl, p.2 - ({ thr with counter := thr.counter + 1 } : ThrottleState).last_ns
        < 20000000 := fun p hp => hwin p (List.mem_cons_of_mem _ hp)
    have hval' : ∀ p ∈ tl, passesStaticChecks p.1 lim :=
      fun p hp => hval p (List.mem_cons_of_mem _ hp)
    obtain ⟨ihl, ihe⟩ := ih { thr with counter := thr.counter + 1 } hwin' hval'
    have ihl' : (processSignals lim tl { thr with counter := thr.counter + 1 }).1.length
        ≤ lim.max_qps - (thr.counter + 1) := by simpa using ihl
    rcases Nat.lt_or_ge lim.max_qps (thr.counter + 1) with hc | hc
    · have hck := check_window_reject sig lim ⟨0⟩ thr now 0 hv hw hc
      have hl : (processSignals lim ((sig, now) :: tl) thr).1
          = (processSignals lim tl { thr with counter := thr.counter + 1 }).1 := by
        simp [processSignals, hck]
      have herr : (processSignals lim ((sig, now) :: tl) thr).2.1
          = RiskError.Throttle
            :: (processSignals lim tl { thr with counter := thr.counter + 1 }).2.1 := by
        simp [processSignals, hck]
      refine ⟨?_, ?_⟩
      · rw [hl]
        omega
      · rw [herr]
        intro e he
        rcases List.mem_cons.mp he with he | he
        · exact he
        · exact ihe e he
    · have hck := check_window_accept sig lim ⟨0⟩ thr now 0 hv hw hc
      have hl : (processSignals lim ((sig, now) :: tl) thr).1
          = { cl_id := "CL-" ++ toString now ++ "-" ++ toString 0,
              ts_ns := sig.ts_ns, symbol := sig.symbol, side := sig.side,
              px := sig.px, qty := sig.qty }
            :: (processSignals lim tl { thr with counter := thr.counter + 1 }).1 := by
        simp [processSignals, hck]
      have herr : (processSignals lim ((sig, now) :: tl) thr).2.1
          = (processSignals lim tl { thr with counter := thr.counter + 1 }).2.1 := by
        simp [processSignals, hck]
      refine ⟨?_, ?_⟩
      · rw [hl]
        simp only [List.length_cons]
        omega
      · rw [herr]
        exact ihe

lemma insertByScore_length (a : String × Int) (l : List (String × Int)) :
    (insertByScore a l).length = l.length + 1 := by
  induction l with
  | nil => rfl
  | cons b t ih =>
    simp only [insertByScore]
    split_ifs
    · simp
    · simp [ih]

lemma sortByScoreDesc_length (l : List (String × Int)) :
    (sortByScoreDesc l).length = l.length := by
  induction l with
  | nil => rfl
  | cons a t ih => simp [sortByScoreDesc, insertByScore_length, ih]

lemma splitEmit_sum (cfg : RouterCfg) (o : Order) (gw : List String) (tl : Int) :
    ∀ (top : List (String × Int)) (rem : Int), top ≠ [] →
      (∀ sh ∈ shareListAux cfg o tl top rem, 0 < sh) →
      (∀ k ∈ top.map Prod.fst, gw.contains k) →
      ((splitEmit cfg o gw tl top rem).map (fun vo => vo.order.qty)).sum = rem := by
  intro top
  induction top with
  | nil => intro rem h; exact absurd rfl h
  | cons hd rest ih =>
    intro rem _ hsh hgw
    obtain ⟨k, s⟩ := hd
    have hgk : gw.contains k := hgw k (by simp)
    have hk : k ∈ gw := by simpa using hgk
    by_cases hr : rest.isEmpty
    · have hrest : rest = [] := List.isEmpty_iff.mp hr
      subst hrest
      have hpos : 0 < rem := by
        have := hsh rem (by simp [shareListAux])
        exact this
      simp [splitEmit, shareListAux, not_le.mpr hpos, hk]
    · have hrest : rest ≠ [] := fun h => by simp [h] at hr
      have hpos : 0 < max (Int.tdiv (o.qty * liqOf cfg k) tl) cfg.min_child_qty := by
        have := hsh (max (Int.tdiv (o.qty * liqOf cfg k) tl) cfg.min_child_qty)
          (by simp [shareListAux, hr])
        exact this
      have hshr : ∀ sh ∈ shareListAux cfg o tl rest
          (rem - max (Int.tdiv (o.qty * liqOf cfg k) tl) cfg.min_child_qty), 0 < sh := by
        intro sh hmem
        exact hsh sh (by simp [shareListAux, hr, hmem])
      have hgwr : ∀ k2 ∈ rest.map Prod.fst, gw.contains k2 :=
        fun k2 hk2 => hgw k2 (by simp [hk2])
      have ihr := ih (rem - max (Int.tdiv (o.qty * liqOf cfg k) tl) cfg.min_child_qty)
        hrest hshr hgwr
      have hstep : splitEmit cfg o gw tl ((k, s) :: rest) rem
          = ⟨k, { o with qty := max (Int.tdiv (o.qty * liqOf cfg k) tl) cfg.min_child_qty,
                         cl_id := o.cl_id ++ "-" ++ k }⟩
            :: splitEmit cfg o gw tl rest
                (rem - max (Int.tdiv (o.qty * liqOf cfg k) tl) cfg.min_child_qty) := by
        simp [splitEmit, hr, not_le.mpr hpos, hk]
      rw [hstep]
      simp only [List.map_cons, List.sum_cons, ihr]
      omega

/-! ## Claim theorems -/

/-- C1: For every sequence of signals processed by the risk gate's `check`
function whose arrival times all fall within one 20 ms window (each signal
less than 20 ms after the throttle's `last_ns`), and which all pass the
notional and price-band checks (a signal flood of otherwise valid signals),
the number of accepted orders is at most `max_qps`, and every rejected
signal of the burst is rejected with the `Throttle` error kind. -/
theorem risk_throttle_window_bound (lim : Limits) (sigs : List (Signal × Int))
    (thr : ThrottleState)
    (hwin : ∀ p ∈ sigs, p.2 - thr.last_ns < 20000000)
    (hval : ∀ p ∈ sigs, passesStaticChecks p.1 lim) :
    (processSignals lim sigs thr).1.length ≤ lim.max_qps ∧
      ∀ e ∈ (processSignals lim sigs thr).2.1, e = RiskError.Throttle := by
  obtain ⟨h1, h2⟩ := processSignals_throttle_bound lim sigs thr hwin hval
  exact ⟨h1.trans (Nat.sub_le _ _), h2⟩

/-- C1 witness: 100 valid signals submitted within 10 ms against the default
limits (`max_qps = 50`) yield at most 50 orders, and all rejections are
`Throttle`; moreover exactly 50 orders are emitted. -/
theorem risk_throttle_window_bound_witness :
    (∀ p ∈ floodSigs, p.2 - ThrottleState.default.last_ns < 20000000) ∧
    (∀ p ∈ floodSigs, passesStaticChecks p.1 limitsDefault) ∧
    ((processSignals limitsDefault floodSigs ThrottleState.default).1.length
        ≤ limitsDefault.max_qps ∧
      ∀ e ∈ (processSignals limitsDefault floodSigs ThrottleState.default).2.1,
        e = RiskError.Throttle) ∧
    (processSignals limitsDefault floodSigs ThrottleState.default).1.length = 50 :=
  ⟨by decide, by decide,
   risk_throttle_window_bound limitsDefault floodSigs ThrottleState.default
     (by decide) (by decide),
   by decide⟩

/-- C2: For every parent order routed by the smart-order router (running
with the program's `RouterCfg::default()` configuration), if every computed
child share is strictly positive and every selected venue has a gateway
queue, then the sum of the quantities of the emitted child `VenueOrder`s
equals the parent order's quantity. -/
theorem router_children_sum_eq_parent (inv : List (String × VenuePosition))
    (gw : List String) (o : Order)
    (hsh : ∀ sh ∈ routerShares RouterCfg.default inv o, 0 < sh)
    (hgw : ∀ k ∈ (topVenues RouterCfg.default inv o).map Prod.fst, gw.contains k) :
    ((routeOrder RouterCfg.default inv gw o).map (fun vo => vo.order.qty)).sum
      = o.qty := by
  have hlen : (topVenues RouterCfg.default inv o).length = 2 := by
    unfold topVenues
    simp [sortByScoreDesc_length, RouterCfg.default]
  have hne : topVenues RouterCfg.default inv o ≠ [] := by
    intro h
    rw [h] at hlen
    simp at hlen
  unfold routeOrder
  refine splitEmit_sum RouterCfg.default o gw _ (topVenues RouterCfg.default inv o)
    o.qty hne ?_ hgw
  intro sh hmem
  exact hsh sh (by simpa [routerShares] using hmem)

/-- C2 witness: with zero inventory, all three default gateways present and
a parent of qty 10 at px 100, the shares are [5, 5] (all positive), the
selected venues all have gateways, and the children sum to 10. -/
theorem router_children_sum_eq_parent_witness :
    (∀ sh ∈ routerShares RouterCfg.default [] ⟨"P", 0, "BTCUSDT", Side.Buy, 100, 10⟩,
        0 < sh) ∧
    (∀ k ∈ (topVenues RouterCfg.default [] ⟨"P", 0, "BTCUSDT", Side.Buy, 100, 10⟩).map
        Prod.fst, (["A", "B", "C"] : List String).contains k) ∧
    ((routeOrder RouterCfg.default [] ["A", "B", "C"]
        ⟨"P", 0, "BTCUSDT", Side.Buy, 100, 10⟩).map (fun vo => vo.order.qty)).sum = 10 :=
  ⟨by decide, by decide,
   router_children_sum_eq_parent [] ["A", "B", "C"]
     ⟨"P", 0, "BTCUSDT", Side.Buy, 100, 10⟩ (by decide) (by decide)⟩

/-- C6 counterexample: with the default venue set, `top_n = 2`, zero
inventory and a parent of qty 10, the router emits children C:5 then A:5 —
not 4 to A and 6 to C as the claim states (in either order). -/
theorem router_split_example_counterexample :
    ((routeOrder RouterCfg.default [] ["A", "B", "C"]
        ⟨"P", 0, "BTCUSDT", Side.Buy, 100, 10⟩).map (fun vo => (vo.venue, vo.order.qty))
      = [("C", 5), ("A", 5)]) ∧
    ([("C", 5), ("A", 5)] : List (String × Int)) ≠ [("A", 4), ("C", 6)] ∧
    ([("C", 5), ("A", 5)] : List (String × Int)) ≠ [("C", 6), ("A", 4)] := by
  decide

/-- C6 amended: with the venue set {A: liq 70, fee 5 bps, lat 3; B: liq 50,
fee 7 bps, lat 2; C: liq 90, fee 2 bps, lat 6}, `top_n = 2`,
`min_child_qty = 2`, zero inventory and a parent order of qty 10 (px 100),
the router selects C (score 84) and A (score 67) in that order and emits
child quantities 5 to C (`max(10·90/160, 2) = 5`) and the remaining 5 to A,
summing to 10. -/
theorem router_split_example_values :
    topVenues RouterCfg.default [] ⟨"P", 0, "BTCUSDT", Side.Buy, 100, 10⟩
        = [("C", 84), ("A", 67)] ∧
    routeOrder RouterCfg.default [] ["A", "B", "C"]
        ⟨"P", 0, "BTCUSDT", Side.Buy, 100, 10⟩
      = [⟨"C", ⟨"P-C", 0, "BTCUSDT", Side.Buy, 100, 5⟩⟩,
         ⟨"A", ⟨"P-A", 0, "BTCUSDT", Side.Buy, 100, 5⟩⟩] ∧
    ((routeOrder RouterCfg.default [] ["A", "B", "C"]
        ⟨"P", 0, "BTCUSDT", Side.Buy, 100, 10⟩).map (fun vo => vo.order.qty)).sum = 10 := by
  decide

/-- C3 counterexample: Buy 10 at 100 then Sell 15 at 110 on a single venue
leaves `avg_cost_px = 100`, not 110 as the claim states (the flip does not
rebase the average cost to the flip price). -/
theorem position_flip_counterexample :
    (lookupVenue (onFill (onFill SymbolState.default
        ⟨"P-V", "BTCUSDT", ExecStatus.Filled, 10, 100, 0⟩ Side.Buy)
        ⟨"P-V", "BTCUSDT", ExecStatus.Filled, 15, 110, 1⟩ Side.Sell).by_venue "V"
      = some ⟨-5, 100, 100⟩) ∧
    ((lookupVenue (onFill (onFill SymbolState.default
        ⟨"P-V", "BTCUSDT", ExecStatus.Filled, 10, 100, 0⟩ Side.Buy)
        ⟨"P-V", "BTCUSDT", ExecStatus.Filled, 15, 110, 1⟩ Side.Sell).by_venue "V").map
      VenuePosition.avg_cost_px ≠ some 110) := by
  decide

/-- C3 amended: starting from a flat single-venue position, a Buy fill of 10
at avg_px 100 followed by a Sell fill of 15 at avg_px 110 yields `qty = −5`,
`realized_pnl = (110 − 100) · 10 = 100`, and `avg_cost_px = 100` (the
average cost of the closed long; the flip does not rebase it to 110). -/
theorem position_flip_values :
    onFill (onFill SymbolState.default
        ⟨"P-V", "BTCUSDT", ExecStatus.Filled, 10, 100, 0⟩ Side.Buy)
        ⟨"P-V", "BTCUSDT", ExecStatus.Filled, 15, 110, 1⟩ Side.Sell
      = ⟨0, -5, 100, 0, [("V", ⟨-5, 100, 100⟩)]⟩ := by
  decide

/-- C4: on a short position the code averages with the signed `entry.qty`
instead of `|prev_qty|`: adding a Sell fill of 5 at 110 to a short of 10 at
average cost 100 produces `((100·(−10)) + (110·5)) / ((−10) + 5) = 90`,
while the claimed formula `(100·10 + 110·5) / (10 + 5)` gives 103. -/
theorem positions_short_avg_cost_failing :
    applyFill ⟨-10, 100, 0⟩ 5 110 Side.Sell = ⟨-15, 90, 0⟩ ∧
    Int.tdiv (100 * 10 + 110 * 5) (10 + 5) = 103 ∧
    (90 : Int) ≠ 103 := by
  decide

/-- C8: starting from a flat venue position, a fill of size Q at price P
followed by an opposite-side fill of size Q at the same price P yields
`qty = 0`, `avg_cost_px = 0`, `realized_pnl = 0`, for every Q > 0 and every
price P. -/
theorem position_opposite_roundtrip (Q P : Int) (s1 s2 : Side)
    (hQ : 0 < Q) (hs : s1 ≠ s2) :
    applyFill (applyFill VenuePosition.default Q P s1) Q P s2
      = VenuePosition.default := by
  cases s1 <;> cases s2
  · exact absurd rfl hs
  · rw [applyFill_buy_flat, applyFill_close_long Q P hQ]
  · rw [applyFill_sell_flat, applyFill_close_short Q P hQ]
  · exact absurd rfl hs

/-- C8 witness: Buy 3 at 50 then Sell 3 at 50 returns the position to the
all-zero state. -/
theorem position_opposite_roundtrip_witness :
    (0 : Int) < 3 ∧ Side.Buy ≠ Side.Sell ∧
    applyFill (applyFill VenuePosition.default 3 50 Side.Buy) 3 50 Side.Sell
      = VenuePosition.default :=
  ⟨by decide, by decide,
   position_opposite_roundtrip 3 50 Side.Buy Side.Sell (by decide) (by decide)⟩

/-- C9 counterexample: a fill whose `cl_id` is `"ABC"` (no '-' present) is
attributed to venue `"ABC"` — the whole `cl_id` — and not to venue `"?"` as
the claim states (`split('-').last()` always yields the final segment, so
the `unwrap_or("?")` fallback is unreachable). -/
theorem venue_fallback_counterexample :
    lookupVenue (onFill SymbolState.default
        ⟨"ABC", "BTCUSDT", ExecStatus.Filled, 3, 100, 0⟩ Side.Buy).by_venue "ABC"
      = some ⟨3, 100, 0⟩ ∧
    lookupVenue (onFill SymbolState.default
        ⟨"ABC", "BTCUSDT", ExecStatus.Filled, 3, 100, 0⟩ Side.Buy).by_venue "?"
      = none := by
  decide

/-- C9 amended: the venue a fill is attributed to is the segment of `cl_id`
after its last '-'; when `cl_id` contains no '-' the whole `cl_id` is used
(the `"?"` fallback is dead code). -/
theorem venue_suffix_after_last_dash (s : String) :
    venueOf s = String.mk (tailAfterDash s.data) := by
  unfold venueOf
  rw [splitDash_getLast]

/-- C10: an exec report with `filled_qty = 0` and `avg_px = 0` (an Ack or
Rejected report, which the fan-out and dispatcher deliver to the positions
task unfiltered) leaves every venue position unchanged — at most inserting
a fresh all-zero entry for the derived venue — and leaves the aggregate
`total_qty` and `realized_pnl` unchanged. The state hypotheses are the
invariants the task maintains: a flat entry has zero average cost, and the
aggregates equal the per-venue sums. -/
theorem positions_zero_fill_frame (st : SymbolState) (er : ExecReport) (side : Side)
    (hq : er.filled_qty = 0) (hp : er.avg_px = 0)
    (hinv : ∀ pr ∈ st.by_venue, pr.2.qty = 0 → pr.2.avg_cost_px = 0)
    (ht : st.total_qty = (st.by_venue.map (fun pr => pr.2.qty)).sum)
    (hr : st.realized_pnl = (st.by_venue.map (fun pr => pr.2.realized_pnl)).sum) :
    (onFill st er side).by_venue
        = (if st.by_venue.any (fun pr => pr.1 == venueOf er.cl_id) then st.by_venue
           else st.by_venue ++ [(venueOf er.cl_id, VenuePosition.default)]) ∧
    (onFill st er side).total_qty = st.total_qty ∧
    (onFill st er side).realized_pnl = st.realized_pnl := by
  unfold onFill
  rw [hq, hp]
  dsimp only
  rw [updateVenue_zero st.by_venue (venueOf er.cl_id) side hinv]
  split_ifs with h
  · exact ⟨rfl, ht.symm, hr.symm⟩
  · refine ⟨rfl, ?_, ?_⟩
    · simp [VenuePosition.default, ht]
    · simp [VenuePosition.default, hr]

/-- C10 witness: an Ack report for `cl_id = "X-B"` applied to a state
holding 5 units at venue A with realized PnL 7 leaves venue A untouched,
adds a zero entry for venue B, and keeps the aggregates at 5 and 7. -/
theorem positions_zero_fill_frame_witness :
    ((⟨"X-B", "BTCUSDT", ExecStatus.Ack, 0, 0, 0⟩ : ExecReport).filled_qty = 0) ∧
    ((⟨"X-B", "BTCUSDT", ExecStatus.Ack, 0, 0, 0⟩ : ExecReport).avg_px = 0) ∧
    (∀ pr ∈ (⟨0, 5, 7, 0, [("A", ⟨5, 100, 7⟩)]⟩ : SymbolState).by_venue,
        pr.2.qty = 0 → pr.2.avg_cost_px = 0) ∧
    ((⟨0, 5, 7, 0, [("A", ⟨5, 100, 7⟩)]⟩ : SymbolState).total_qty
        = ((⟨0, 5, 7, 0, [("A", ⟨5, 100, 7⟩)]⟩ : SymbolState).by_venue.map
            (fun pr => pr.2.qty)).sum) ∧
    ((⟨0, 5, 7, 0, [("A", ⟨5, 100, 7⟩)]⟩ : SymbolState).realized_pnl
        = ((⟨0, 5, 7, 0, [("A", ⟨5, 100, 7⟩)]⟩ : SymbolState).by_venue.map
            (fun pr => pr.2.realized_pnl)).sum) ∧
    ((onFill ⟨0, 5, 7, 0, [("A", ⟨5, 100, 7⟩)]⟩
        ⟨"X-B", "BTCUSDT", ExecStatus.Ack, 0, 0, 0⟩ Side.Buy).by_venue
        = (if (⟨0, 5, 7, 0, [("A", ⟨5, 100, 7⟩)]⟩ : SymbolState).by_venue.any
              (fun pr => pr.1 == venueOf "X-B")
           then (⟨0, 5, 7, 0, [("A", ⟨5, 100, 7⟩)]⟩ : SymbolState).by_venue
           else (⟨0, 5, 7, 0, [("A", ⟨5, 100, 7⟩)]⟩ : SymbolState).by_venue
                  ++ [(venueOf "X-B", VenuePosition.default)]) ∧
      (onFill ⟨0, 5, 7, 0, [("A", ⟨5, 100, 7⟩)]⟩
        ⟨"X-B", "BTCUSDT", ExecStatus.Ack, 0, 0, 0⟩ Side.Buy).total_qty = 5 ∧
      (onFill ⟨0, 5, 7, 0, [("A", ⟨5, 100, 7⟩)]⟩
        ⟨"X-B", "BTCUSDT", ExecStatus.Ack, 0, 0, 0⟩ Side.Buy).realized_pnl = 7) :=
  ⟨rfl, rfl, by decide, by decide, by decide,
   positions_zero_fill_frame ⟨0, 5, 7, 0, [("A", ⟨5, 100, 7⟩)]⟩
     ⟨"X-B", "BTCUSDT", ExecStatus.Ack, 0, 0, 0⟩ Side.Buy
     rfl rfl (by decide) (by decide) (by decide)⟩

/-- C7 counterexample: with the default limits, a signal with px 1000 (in
band) and qty −2⁶¹ has a mathematical notional of 1000·(−2⁶¹), far below
i64::MIN — the product overflows i64 — yet `saturating_mul` clamps it to
i64::MIN ≤ max_notional, so `check` emits an order. -/
theorem risk_overflow_accept_counterexample :
    (check ⟨0, "BTCUSDT", Side.Buy, 1000, -(2 ^ 61)⟩ limitsDefault ⟨0⟩
        ThrottleState.default 0 0).1
      = Except.ok ⟨"CL-0-0", 0, "BTCUSDT", Side.Buy, 1000, -(2 ^ 61)⟩ ∧
    (1000 : Int) * -(2 ^ 61) < I64_MIN :=
  ⟨rfl, by decide⟩

/-- C7 amended: for every signal accepted by the risk gate's `check`
function, the emitted order satisfies `px_min ≤ px ≤ px_max` and
`saturating_mul px qty ≤ max_notional`; whenever `max_notional < i64::MAX`
the mathematical product `px · qty` also satisfies `px · qty ≤ max_notional`
(an order can still be emitted when the product overflows i64 negatively),
and the order preserves the signal's `ts_ns`, symbol, side, px and qty. -/
theorem risk_accept_band_notional (sig : Signal) (lim : Limits) (pos : Positions)
    (thr : ThrottleState) (now : Int) (rand : Nat) (ord : Order)
    (hok : (check sig lim pos thr now rand).1 = Except.ok ord) :
    lim.px_min ≤ ord.px ∧ ord.px ≤ lim.px_max ∧
    saturating_mul sig.px sig.qty ≤ lim.max_notional ∧
    (lim.max_notional < I64_MAX → sig.px * sig.qty ≤ lim.max_notional) ∧
    ord.ts_ns = sig.ts_ns ∧ ord.symbol = sig.symbol ∧ ord.side = sig.side ∧
    ord.px = sig.px ∧ ord.qty = sig.qty := by
  unfold check at hok
  dsimp only at hok
  by_cases hn : lim.max_notional < saturating_mul sig.px sig.qty
  · rw [if_pos hn] at hok
    exact absurd hok (by simp)
  rw [if_neg hn] at hok
  by_cases hb : sig.px < lim.px_min ∨ lim.px_max < sig.px
  · rw [if_pos hb] at hok
    exact absurd hok (by simp)
  rw [if_neg hb] at hok
  have hfields : ord = ⟨"CL-" ++ toString now ++ "-" ++ toString rand,
      sig.ts_ns, sig.symbol, sig.side, sig.px, sig.qty⟩ := by
    by_cases hw : now - thr.last_ns < 20000000
    · rw [if_pos hw] at hok
      by_cases hq : lim.max_qps < thr.counter + 1
      · rw [if_pos hq] at hok
        exact absurd hok (by simp)
      · rw [if_neg hq] at hok
        replace hok : Except.ok (⟨"CL-" ++ toString now ++ "-" ++ toString rand,
            sig.ts_ns, sig.symbol, sig.side, sig.px, sig.qty⟩ : Order)
              = Except.ok ord := hok
        injection hok with hok
        exact hok.symm
    · rw [if_neg hw] at hok
      replace hok : Except.ok (⟨"CL-" ++ toString now ++ "-" ++ toString rand,
          sig.ts_ns, sig.symbol, sig.side, sig.px, sig.qty⟩ : Order)
            = Except.ok ord := hok
      injection hok with hok
      exact hok.symm
  subst hfields
  have hsat : saturating_mul sig.px sig.qty ≤ lim.max_notional := not_lt.mp hn
  have hmath : lim.max_notional < I64_MAX → sig.px * sig.qty ≤ lim.max_notional := by
    intro hlt
    have hs2 := hsat
    unfold saturating_mul at hs2
    split_ifs at hs2 with ha hb2
    · omega
    · omega
    · exact hs2
  refine ⟨?_, ?_, hsat, hmath, rfl, rfl, rfl, rfl, rfl⟩
  · show lim.px_min ≤ sig.px
    omega
  · show sig.px ≤ lim.px_max
    omega

/-- C7 witness: a valid signal (px 10000, qty 10) accepted against the
default limits satisfies the band, notional and field-preservation
guarantees. -/
theorem risk_accept_band_notional_witness :
    ((check ⟨0, "BTCUSDT", Side.Buy, 10000, 10⟩ limitsDefault ⟨0⟩
        ThrottleState.default 0 0).1
      = Except.ok ⟨"CL-0-0", 0, "BTCUSDT", Side.Buy, 10000, 10⟩) ∧
    (limitsDefault.px_min ≤ (10000 : Int) ∧ (10000 : Int) ≤ limitsDefault.px_max ∧
      saturating_mul 10000 10 ≤ limitsDefault.max_notional ∧
      (limitsDefault.max_notional < I64_MAX → (10000 : Int) * 10 ≤ limitsDefault.max_notional) ∧
      (0 : Int) = 0 ∧ "BTCUSDT" = "BTCUSDT" ∧ Side.Buy = Side.Buy ∧
      (10000 : Int) = 10000 ∧ (10 : Int) = 10) :=
  ⟨rfl,
   risk_accept_band_notional ⟨0, "BTCUSDT", Side.Buy, 10000, 10⟩ limitsDefault ⟨0⟩
     ThrottleState.default 0 0 ⟨"CL-0-0", 0, "BTCUSDT", Side.Buy, 10000, 10⟩ rfl⟩

/-- C5 counterexample: with `MACrossState::new(1, 2, 1, 0)` and ticks with
mids 10 then 20, the state before the second tick still has
`prev_diff_sign = 0` (no sign latched yet), and yet `on_tick` emits a Buy
signal on that tick — the claim that nothing is emitted while
`prev_sign == 0` is false (since `new` starts `since_last = cooldown`, the
first valid tick emits immediately). -/
theorem ma_crossover_latch_counterexample :
    ((MACrossState.new 1 2 1 0).on_tick ⟨0, "S", 10, 10⟩).2.prev_diff_sign = 0 ∧
    (((MACrossState.new 1 2 1 0).on_tick ⟨0, "S", 10, 10⟩).2.on_tick
        ⟨1, "S", 20, 20⟩).1 = some ⟨1, "S", Side.Buy, 20, 10⟩ := by
  decide

/-- C5 amended: while `prev_sign == 0` and `since_last ≥ cooldown` (the
state `new` produces), `on_tick` emits a signal exactly when the tick is
valid — both windows full and `|SMA_fast − SMA_slow| ≥ min_edge` — because
`cur_sign ≠ prev_sign` holds trivially; the sign is latched (to `cur_sign`
on a valid tick, unchanged otherwise), and a latch without emission happens
only when `since_last < cooldown`. -/
theorem ma_crossover_unlatched_emission (st : MACrossState) (md : MdTick)
    (h0 : st.prev_diff_sign = 0) (h1 : st.cooldown_ticks ≤ st.since_last)
    (h2 : st.since_last ≤ U32_MAX) :
    ((st.on_tick md).1.isSome ↔ maTickValid st md) ∧
    (st.on_tick md).2.prev_diff_sign
      = (if maTickValid st md then maCurSign st md else 0) := by
  have hsince : st.cooldown_ticks ≤ min (st.since_last + 1) U32_MAX := by
    omega
  unfold MACrossState.on_tick maTickValid maCurSign
  dsimp only
  set F := (push_window st.fast_win st.fast_sum st.fast_w (mid_price md)).1 with hF
  set S := (push_window st.slow_win st.slow_sum st.slow_w (mid_price md)).1 with hS
  set df := (sma (push_window st.fast_win st.fast_sum st.fast_w (mid_price md)).2 st.fast_w).getD 0
      - (sma (push_window st.slow_win st.slow_sum st.slow_w (mid_price md)).2 st.slow_w).getD 0 with hdf
  by_cases hc1 : F.length < st.fast_w ∨ S.length < st.slow_w
  · have hnv : ¬(st.fast_w ≤ F.length ∧ st.slow_w ≤ S.length ∧ st.min_edge ≤ |df|) := by
      rintro ⟨hA, hB, -⟩
      rcases hc1 with h | h <;> omega
    rw [if_pos hc1]
    constructor
    · simp [hnv]
    · rw [if_neg hnv]
      exact h0
  · rw [if_neg hc1]
    by_cases hc2 : |df| < st.min_edge
    · have hnv : ¬(st.fast_w ≤ F.length ∧ st.slow_w ≤ S.length ∧ st.min_edge ≤ |df|) := by
        rintro ⟨-, -, hC⟩
        exact absurd hC (not_le.mpr hc2)
      rw [if_pos hc2]
      constructor
      · simp [hnv]
      · rw [if_neg hnv]
        exact h0
    · rw [if_neg hc2]
      push_neg at hc1
      have hv : st.fast_w ≤ F.length ∧ st.slow_w ≤ S.length ∧ st.min_edge ≤ |df| :=
        ⟨hc1.1, hc1.2, not_lt.mp hc2⟩
      have hcur : ((if 0 < df then (1 : Int) else -1)) ≠ st.prev_diff_sign := by
        rw [h0]
        split_ifs <;> decide
      rw [if_pos (⟨hcur, hsince⟩ :
        (if 0 < df then (1 : Int) else -1) ≠ st.prev_diff_sign ∧
          st.cooldown_ticks ≤ min (st.since_last + 1) U32_MAX)]
      by_cases hdfpos : 0 < df
      · simp only [if_pos hdfpos]
        rw [if_pos (by decide : (0 : Int) < 1)]
        constructor
        · simp [hv]
        · rw [if_pos hv]
      · simp only [if_neg hdfpos]
        rw [if_neg (by decide : ¬ (0 : Int) < -1)]
        constructor
        · simp [hv]
        · rw [if_pos hv]

/-- C5 witness: the state after one tick of `MACrossState::new(1, 2, 1, 0)`
(prev sign still 0, cooldown satisfied) emits on the next tick with mid 20,
exactly as characterised by the amended emission theorem. -/
theorem ma_crossover_unlatched_emission_witness :
    ((⟨1, 2, [10], [10], 10, 10, 0, 1, 0, 1⟩ : MACrossState).prev_diff_sign = 0) ∧
    ((⟨1, 2, [10], [10], 10, 10, 0, 1, 0, 1⟩ : MACrossState).cooldown_ticks
        ≤ (⟨1, 2, [10], [10], 10, 10, 0, 1, 0, 1⟩ : MACrossState).since_last) ∧
    ((⟨1, 2, [10], [10], 10, 10, 0, 1, 0, 1⟩ : MACrossState).since_last ≤ U32_MAX) ∧
    ((((⟨1, 2, [10], [10], 10, 10, 0, 1, 0, 1⟩ : MACrossState).on_tick
          ⟨1, "S", 20, 20⟩).1.isSome
        ↔ maTickValid ⟨1, 2, [10], [10], 10, 10, 0, 1, 0, 1⟩ ⟨1, "S", 20, 20⟩) ∧
      ((⟨1, 2, [10], [10], 10, 10, 0, 1, 0, 1⟩ : MACrossState).on_tick
          ⟨1, "S", 20, 20⟩).2.prev_diff_sign
        = (if maTickValid ⟨1, 2, [10], [10], 10, 10, 0, 1, 0, 1⟩ ⟨1, "S", 20, 20⟩
           then maCurSign ⟨1, 2, [10], [10], 10, 10, 0, 1, 0, 1⟩ ⟨1, "S", 20, 20⟩
           else 0)) :=
  ⟨rfl, by decide, by decide,
   ma_crossover_unlatched_emission ⟨1, 2, [10], [10], 10, 10, 0, 1, 0, 1⟩
     ⟨1, "S", 20, 20⟩ rfl (by decide) (by decide)⟩
